import Mathlib

/-!
Verification of the clustering-evaluation and topic-discovery pipeline of
the `thesis_split` repository, against its natural-language specification.

The development shallowly embeds the relevant program fragments:

* the per-candidate silhouette table and the best-`k` selection of the
  dashboard's `SilhouetteChart` component (`optimalK`, a `reduce` that keeps
  the first strictly greater element, over data listed in ascending `k`);
* the lexicon-based negative-keyword score `hits` of the topic-inspection
  notebook (`sum(kw in txt for kw in _NEG_KEYWORDS)`: one point per lexicon
  keyword occurring as a substring of the document text);
* the search page's `fetchResults` (blank search terms short-circuit without
  issuing a backend query);
* the representative-quotes view's `loadQuotes` (an `all` selection flattens
  every cluster's quote list; a missing cluster id falls back to `[]`).

Parts of the evaluator that exist in the repository only through callers
(the candidate-range loop, failure bookkeeping, and the sampling fallback of
`cluster_eval.py`) are modelled from the specification and are marked as such
in their doc comments.

Real-valued silhouette scores are embedded as rationals.
-/

/-- One entry of the silhouette table: a candidate cluster count `k` and its
silhouette score. -/
structure Cand where
  k : Nat
  silhouette : ℚ
deriving DecidableEq

/-- The mock silhouette table of `SilhouetteChart` (`src/unnamed/part_007`),
listed in ascending `k` exactly as in the source. -/
def mockData : List Cand :=
  [⟨2, 41/100⟩, ⟨3, 38/100⟩, ⟨4, 35/100⟩, ⟨5, 42/100⟩, ⟨6, 45/100⟩,
   ⟨7, 48/100⟩, ⟨8, 52/100⟩, ⟨9, 49/100⟩, ⟨10, 46/100⟩, ⟨11, 43/100⟩,
   ⟨12, 40/100⟩]

/-- One step of the JavaScript reduction
`(max, d) => d.silhouette > max.silhouette ? d : max`. -/
def reduceStep (m d : Cand) : Cand :=
  if m.silhouette < d.silhouette then d else m

/-- The best-`k` selection of `SilhouetteChart`:
`data.reduce((max, d) => d.silhouette > max.silhouette ? d : max)`.
A JavaScript `reduce` without an initial value starts from the first element
and fails on an empty array, hence the `Option`. -/
def optimalK : List Cand → Option Cand
  | [] => none
  | h :: t => some (t.foldl reduceStep h)

theorem reduceStep_left_le (a b : Cand) : a.silhouette ≤ (reduceStep a b).silhouette := by
  unfold reduceStep
  split
  · exact le_of_lt (by assumption)
  · exact le_refl _

theorem reduceStep_right_le (a b : Cand) : b.silhouette ≤ (reduceStep a b).silhouette := by
  unfold reduceStep
  split
  · exact le_refl _
  · exact le_of_not_lt (by assumption)

theorem reduce_mem (l : List Cand) (a : Cand) :
    l.foldl reduceStep a = a ∨ l.foldl reduceStep a ∈ l := by
  induction l generalizing a with
  | nil => exact Or.inl rfl
  | cons b t ih =>
    simp only [List.foldl_cons]
    rcases ih (reduceStep a b) with h | h
    · rw [h]
      unfold reduceStep
      split
      · exact Or.inr (List.mem_cons_self _ _)
      · exact Or.inl rfl
    · exact Or.inr (List.mem_cons_of_mem _ h)

theorem reduce_ge (l : List Cand) (a : Cand) :
    ∀ d ∈ a :: l, d.silhouette ≤ (l.foldl reduceStep a).silhouette := by
  induction l generalizing a with
  | nil =>
    intro d hd
    rcases List.mem_singleton.mp hd with rfl
    exact le_refl _
  | cons b t ih =>
    intro d hd
    simp only [List.foldl_cons]
    rcases List.mem_cons.mp hd with rfl | hd'
    · exact le_trans (reduceStep_left_le d b) (ih (reduceStep d b) _ (List.mem_cons_self _ _))
    · rcases List.mem_cons.mp hd' with rfl | hd''
      · exact le_trans (reduceStep_right_le a d) (ih (reduceStep a d) _ (List.mem_cons_self _ _))
      · exact ih (reduceStep a b) d (List.mem_cons_of_mem _ hd'')

/-- Over a list whose `k` fields are strictly increasing, the reduction keeps
the first maximum, hence the smallest `k` among maximal scores. -/
theorem reduce_first_max (l : List Cand) (a : Cand)
    (hp : (a :: l).Pairwise (fun x y => x.k < y.k)) :
    ∀ d ∈ a :: l, (l.foldl reduceStep a).silhouette = d.silhouette →
      (l.foldl reduceStep a).k ≤ d.k := by
  induction l generalizing a with
  | nil =>
    intro d hd _
    rcases List.mem_singleton.mp hd with rfl
    exact le_refl _
  | cons b t ih =>
    intro d hd hs
    rcases List.pairwise_cons.mp hp with ⟨hak, hbt⟩
    simp only [List.foldl_cons] at hs ⊢
    by_cases hab : a.silhouette < b.silhouette
    · have hstep : reduceStep a b = b := by
        unfold reduceStep; rw [if_pos hab]
      rw [hstep] at hs ⊢
      rcases List.mem_cons.mp hd with rfl | hd'
      · exfalso
        have hb : b.silhouette ≤ (t.foldl reduceStep b).silhouette :=
          reduce_ge t b b (List.mem_cons_self _ _)
        rw [hs] at hb
        exact absurd hab (not_lt_of_le hb)
      · exact ih b hbt d hd' hs
    · have hstep : reduceStep a b = a := by
        unfold reduceStep; rw [if_neg hab]
      rw [hstep] at hs ⊢
      have hpat : (a :: t).Pairwise (fun x y => x.k < y.k) := by
        refine List.pairwise_cons.mpr ⟨?_, (List.pairwise_cons.mp hbt).2⟩
        intro x hx
        exact hak x (List.mem_cons_of_mem _ hx)
      rcases List.mem_cons.mp hd with rfl | hd'
      · exact ih d hpat d (List.mem_cons_self _ _) hs
      · rcases List.mem_cons.mp hd' with rfl | hd''
        · have ha : a.silhouette ≤ (t.foldl reduceStep a).silhouette :=
            reduce_ge t a a (List.mem_cons_self _ _)
          have hda : d.silhouette ≤ a.silhouette := le_of_not_lt hab
          have hsa : (t.foldl reduceStep a).silhouette = a.silhouette :=
            le_antisymm (by rw [hs]; exact hda) ha
          exact le_trans (ih a hpat a (List.mem_cons_self _ _) hsa)
            (le_of_lt (hak d (List.mem_cons_self _ _)))
        · exact ih a hpat d (List.mem_cons_of_mem _ hd'') hs

/-- Modelled from the spec: the candidate range `[k_min, k_max]` the evaluator
walks, in ascending order, as in the missing `cluster_eval.py` ("Testing k
values: k=2, k=3, ..."). -/
def candidateKs (kmin kmax : Nat) : List Nat :=
  (List.range (kmax + 1 - kmin)).map (fun i => i + kmin)

/-- Modelled from the spec: the per-candidate silhouette table produced by one
evaluator run; a candidate whose scoring fails contributes no entry. -/
def evalCandidates (kmin kmax : Nat) (score : Nat → Option ℚ) : List Cand :=
  (candidateKs kmin kmax).filterMap (fun k => (score k).map (fun s => Cand.mk k s))

/-- The best-`k` selection over the candidate table, using the chart's
reduction. -/
def bestK (kmin kmax : Nat) (score : Nat → Option ℚ) : Option Cand :=
  optimalK (evalCandidates kmin kmax score)

theorem mem_candidateKs (kmin kmax k : Nat) :
    k ∈ candidateKs kmin kmax ↔ kmin ≤ k ∧ k ≤ kmax := by
  unfold candidateKs
  simp only [List.mem_map, List.mem_range]
  constructor
  · rintro ⟨i, hi, rfl⟩
    exact ⟨Nat.le_add_left _ _, by omega⟩
  · rintro ⟨h1, h2⟩
    exact ⟨k - kmin, by omega, by omega⟩

theorem mem_evalCandidates (kmin kmax : Nat) (score : Nat → Option ℚ) (c : Cand) :
    c ∈ evalCandidates kmin kmax score ↔
      kmin ≤ c.k ∧ c.k ≤ kmax ∧ score c.k = some c.silhouette := by
  unfold evalCandidates
  rw [List.mem_filterMap]
  constructor
  · rintro ⟨a, ha, hfa⟩
    rcases Option.map_eq_some'.mp hfa with ⟨s, hs, hc⟩
    rcases c with ⟨ck, cs⟩
    cases hc
    rcases (mem_candidateKs kmin kmax a).mp ha with ⟨h1, h2⟩
    exact ⟨h1, h2, hs⟩
  · rintro ⟨h1, h2, h3⟩
    exact ⟨c.k, (mem_candidateKs kmin kmax c.k).mpr ⟨h1, h2⟩,
      by rw [h3]; rfl⟩

theorem evalCandidates_pairwise (kmin kmax : Nat) (score : Nat → Option ℚ) :
    (evalCandidates kmin kmax score).Pairwise (fun x y => x.k < y.k) := by
  unfold evalCandidates candidateKs
  apply List.Pairwise.filterMap
  · intro a a' hlt b hb b' hb'
    rcases Option.map_eq_some'.mp hb with ⟨s, _, hc⟩
    rcases Option.map_eq_some'.mp hb' with ⟨s', _, hc'⟩
    cases hc; cases hc'
    exact hlt
  · exact (List.pairwise_lt_range _).map _ (fun a b h => Nat.add_lt_add_right h kmin)

/-- Claim C1: over any candidate range with at least one successfully scored
candidate, the evaluation selects exactly one best candidate; its `k` lies in
the closed range, its silhouette score lies in `[-1, 1]` and is maximal among
all scored candidates, and among equally maximal candidates the smallest `k`
is selected. -/
theorem bestK_in_range_max_tiebreak (kmin kmax : Nat) (score : Nat → Option ℚ)
    (_hle : kmin ≤ kmax)
    (hex : ∃ k, kmin ≤ k ∧ k ≤ kmax ∧ (score k).isSome = true)
    (hrange : ∀ k s, score k = some s → -1 ≤ s ∧ s ≤ 1) :
    (bestK kmin kmax score).isSome = true ∧
    ∀ c, bestK kmin kmax score = some c →
      (kmin ≤ c.k ∧ c.k ≤ kmax) ∧
      score c.k = some c.silhouette ∧
      (-1 ≤ c.silhouette ∧ c.silhouette ≤ 1) ∧
      (∀ k s, kmin ≤ k → k ≤ kmax → score k = some s → s ≤ c.silhouette) ∧
      (∀ k, kmin ≤ k → k ≤ kmax → score k = some c.silhouette → c.k ≤ k) := by
  rcases hex with ⟨k0, h1, h2, h3⟩
  rcases Option.isSome_iff_exists.mp h3 with ⟨s0, hs0⟩
  have hmem0 : (Cand.mk k0 s0) ∈ evalCandidates kmin kmax score :=
    (mem_evalCandidates kmin kmax score _).mpr ⟨h1, h2, hs0⟩
  have hne : evalCandidates kmin kmax score ≠ [] := by
    intro h
    rw [h] at hmem0
    exact List.not_mem_nil _ hmem0
  rcases hl : evalCandidates kmin kmax score with _ | ⟨h, t⟩
  · exact absurd hl hne
  constructor
  · simp [bestK, hl, optimalK]
  · intro c hc
    have hcval : c = t.foldl reduceStep h := by
      have : bestK kmin kmax score = some (t.foldl reduceStep h) := by
        simp [bestK, hl, optimalK]
      rw [this] at hc
      exact (Option.some.injEq _ _).mp hc.symm
    have hcmem : c ∈ evalCandidates kmin kmax score := by
      rw [hl]
      rcases reduce_mem t h with he | he
      · rw [hcval, he]; exact List.mem_cons_self _ _
      · rw [hcval]; exact List.mem_cons_of_mem _ he
    rcases (mem_evalCandidates kmin kmax score c).mp hcmem with ⟨hc1, hc2, hc3⟩
    refine ⟨⟨hc1, hc2⟩, hc3, hrange _ _ hc3, ?_, ?_⟩
    · intro k s hk1 hk2 hks
      have hm : (Cand.mk k s) ∈ evalCandidates kmin kmax score :=
        (mem_evalCandidates kmin kmax score _).mpr ⟨hk1, hk2, hks⟩
      rw [hl] at hm
      rw [hcval]
      exact reduce_ge t h _ hm
    · intro k hk1 hk2 hks
      have hm : (Cand.mk k c.silhouette) ∈ evalCandidates kmin kmax score :=
        (mem_evalCandidates kmin kmax score _).mpr ⟨hk1, hk2, hks⟩
      rw [hl] at hm
      have hpair := evalCandidates_pairwise kmin kmax score
      rw [hl] at hpair
      have := reduce_first_max t h hpair _ hm (by rw [← hcval])
      rw [← hcval] at this
      exact this

/-- The mock silhouette table read as a scoring function on candidate `k`. -/
def mockScore (k : Nat) : Option ℚ :=
  (mockData.find? (fun c => c.k == k)).map Cand.silhouette

theorem mockScore_bounds : ∀ k s, mockScore k = some s → -1 ≤ s ∧ s ≤ 1 := by
  intro k s h
  rcases Option.map_eq_some'.mp h with ⟨c, hfind, rfl⟩
  have hc : c ∈ mockData := List.mem_of_find?_eq_some hfind
  fin_cases hc <;> constructor <;> norm_num

/-- Witness for claim C1: the mock table over the range `[2, 12]` yields a
selected candidate. -/
theorem bestK_in_range_max_tiebreak_witness :
    (bestK 2 12 mockScore).isSome = true :=
  (bestK_in_range_max_tiebreak 2 12 mockScore (by decide)
    ⟨2, by decide, by decide, by rfl⟩ mockScore_bounds).1

/-- The dataset tag compared against by the dashboard components. -/
def datasetHighRating : String := "high_rating"

/-- The other dataset tag used by the dashboard. -/
def datasetMostCommented : String := "most_commented"

/-- The silhouette data drawn by `SilhouetteChart` (`src/unnamed/part_007`,
lines 26-29): the mock table as-is for the `high_rating` dataset, and
otherwise the table with `(Math.random() - 0.5) * 0.1` added to every score.
The unseeded `Math.random()` draws are embedded as a stream of rationals
consumed in call order. -/
def chartData (dataset : String) (rand : Nat → ℚ) : List Cand :=
  if dataset = datasetHighRating then mockData
  else mockData.enum.map
    (fun p => Cand.mk p.2.k (p.2.silhouette + (rand p.1 - 1/2) * (1/10)))

/-- A run of `Math.random()` draws that are all `0.5` (zero noise). -/
def randRunA : Nat → ℚ := fun _ => 1/2

/-- A run of `Math.random()` draws that lowers the `k = 8` score and raises
the `k = 9` score. -/
def randRunB : Nat → ℚ := fun i => if i = 6 then 0 else if i = 7 then 999/1000 else 1/2

/-- Claim C2 counterexample: for the `most_commented` dataset the chart's
per-candidate scores incorporate fresh unseeded `Math.random()` draws, so two
runs (two legitimate draw streams, all values in `[0, 1)`) produce different
per-candidate scores and even a different selected best `k`. -/
theorem chartData_two_runs_differ :
    chartData datasetMostCommented randRunA ≠ chartData datasetMostCommented randRunB ∧
    optimalK (chartData datasetMostCommented randRunA) ≠
      optimalK (chartData datasetMostCommented randRunB) := by
  have hmc : ∀ r, chartData datasetMostCommented r =
      mockData.enum.map
        (fun p => Cand.mk p.2.k (p.2.silhouette + (r p.1 - 1/2) * (1/10))) := by
    intro r
    unfold chartData
    rw [if_neg (by decide)]
  constructor <;>
  · rw [hmc, hmc]
    norm_num [mockData, List.enum, List.enumFrom, randRunA, randRunB,
      optimalK, reduceStep, Cand.mk.injEq]

/-- Claim C2 (amended): the chart's data is reproducible for the
`high_rating` dataset (the mock table is a constant), and for any dataset two
runs agree whenever they consume identical random draws; for other datasets
the scores depend on fresh unseeded draws (see the counterexample). -/
theorem chartData_deterministic (r1 r2 : Nat → ℚ) :
    chartData datasetHighRating r1 = chartData datasetHighRating r2 ∧
    ∀ ds, (∀ i, r1 i = r2 i) → chartData ds r1 = chartData ds r2 := by
  constructor
  · simp [chartData]
  · intro ds hsame
    have : r1 = r2 := funext hsame
    rw [this]

/-- Witness for claim C2 (amended): two concrete runs. -/
theorem chartData_deterministic_witness :
    chartData datasetHighRating (fun _ => 0) = chartData datasetHighRating (fun _ => 1) ∧
    chartData datasetMostCommented (fun _ => 0) = chartData datasetMostCommented (fun _ => 0) :=
  ⟨(chartData_deterministic (fun _ => 0) (fun _ => 1)).1,
   (chartData_deterministic (fun _ => 0) (fun _ => 0)).2 datasetMostCommented (fun _ => rfl)⟩

theorem optimalK_eq_none (l : List Cand) : optimalK l = none ↔ l = [] := by
  cases l <;> simp [optimalK]

theorem optimalK_mem_max (l : List Cand) (r : Cand) (h : optimalK l = some r) :
    r ∈ l ∧ ∀ d ∈ l, d.silhouette ≤ r.silhouette := by
  cases l with
  | nil => simp [optimalK] at h
  | cons a t =>
    simp only [optimalK, Option.some.injEq] at h
    subst h
    constructor
    · rcases reduce_mem t a with he | he
      · rw [he]; exact List.mem_cons_self _ _
      · exact List.mem_cons_of_mem _ he
    · exact fun d hd => reduce_ge t a d hd

/-- Claim C6 counterexample: the selection keeps the first maximal element it
meets, so with a tie between `k = 5` and `k = 3` the two completion orders
select different candidates — the reduction is not order-invariant. -/
theorem optimalK_order_dependent :
    (Cand.mk 5 (mkRat 1 2) :: [Cand.mk 3 (mkRat 1 2)]).Perm
      (Cand.mk 3 (mkRat 1 2) :: [Cand.mk 5 (mkRat 1 2)]) ∧
    optimalK [Cand.mk 5 (mkRat 1 2), Cand.mk 3 (mkRat 1 2)] ≠
      optimalK [Cand.mk 3 (mkRat 1 2), Cand.mk 5 (mkRat 1 2)] := by
  refine ⟨List.Perm.swap _ _ _, ?_⟩
  simp only [optimalK, List.foldl_cons, List.foldl_nil, reduceStep,
    lt_irrefl, if_false]
  intro h
  simp only [Option.some.injEq, Cand.mk.injEq] at h
  exact absurd h.1 (by decide)

/-- Claim C6 (amended): the selected score is a pure reduction of the
unordered multiset of results — it is invariant under any completion or merge
order — and when no two candidates share a score the selected candidate
itself is order-invariant; under a tie the first-encountered maximal
candidate wins, so only the ascending-`k` order realizes the smallest-`k`
tie-break. -/
theorem optimalK_perm (l1 l2 : List Cand) (hperm : l1.Perm l2) :
    (optimalK l1).map Cand.silhouette = (optimalK l2).map Cand.silhouette ∧
    ((l1.map Cand.silhouette).Nodup → optimalK l1 = optimalK l2) := by
  by_cases hnil : l1 = []
  · subst hnil
    have h2 : l2 = [] := (hperm.nil_eq).symm
    subst h2
    exact ⟨rfl, fun _ => rfl⟩
  · have hnil2 : l2 ≠ [] := fun h => hnil (List.perm_nil.mp (h ▸ hperm))
    rcases Option.ne_none_iff_exists'.mp
      (fun h => hnil ((optimalK_eq_none l1).mp h)) with ⟨r1, hr1⟩
    rcases Option.ne_none_iff_exists'.mp
      (fun h => hnil2 ((optimalK_eq_none l2).mp h)) with ⟨r2, hr2⟩
    rcases optimalK_mem_max l1 r1 hr1 with ⟨hm1, hmax1⟩
    rcases optimalK_mem_max l2 r2 hr2 with ⟨hm2, hmax2⟩
    have hs : r1.silhouette = r2.silhouette :=
      le_antisymm (hmax2 r1 (hperm.mem_iff.mp hm1)) (hmax1 r2 (hperm.mem_iff.mpr hm2))
    refine ⟨by rw [hr1, hr2, Option.map_some', Option.map_some', hs], ?_⟩
    intro hnodup
    have heq : r1 = r2 :=
      List.inj_on_of_nodup_map hnodup hm1 (hperm.mem_iff.mpr hm2) hs
    rw [hr1, hr2, heq]

/-- Witness for claim C6 (amended): two orderings of a tie-free result set. -/
theorem optimalK_perm_witness :
    (optimalK [Cand.mk 5 (mkRat 2 5), Cand.mk 3 (mkRat 1 2)]).map Cand.silhouette =
      (optimalK [Cand.mk 3 (mkRat 1 2), Cand.mk 5 (mkRat 2 5)]).map Cand.silhouette ∧
    optimalK [Cand.mk 5 (mkRat 2 5), Cand.mk 3 (mkRat 1 2)] =
      optimalK [Cand.mk 3 (mkRat 1 2), Cand.mk 5 (mkRat 2 5)] :=
  ⟨(optimalK_perm _ _ (List.Perm.swap _ _ _)).1,
   (optimalK_perm _ _ (List.Perm.swap _ _ _)).2 (by decide)⟩

/-- Failure causes the spec distinguishes for one candidate evaluation. -/
inductive FailCause
  | timeout
  | numerical
  | degenerate
deriving DecidableEq

/-- Modelled from the spec: the outcome of fitting-and-scoring one candidate
`k` (the worker body of the missing `cluster_eval.py`). -/
inductive CandOutcome
  | ok (s : ℚ)
  | failed (cause : FailCause)
deriving DecidableEq

/-- Modelled from the spec: the entry recorded for one candidate in the
`ClusterQualityReport` — the score, or a sentinel failed status that does not
record the cause. -/
inductive CandStatus
  | scored (s : ℚ)
  | failedStatus
deriving DecidableEq

/-- Modelled from the spec: how one candidate's outcome is recorded; every
failure cause is marked the same way. -/
def markOutcome : CandOutcome → CandStatus
  | CandOutcome.ok s => CandStatus.scored s
  | CandOutcome.failed _ => CandStatus.failedStatus

/-- Modelled from the spec: the `ClusterQualityReport` of one run over the
candidate range. -/
def qualityReport (kmin kmax : Nat) (run : Nat → CandOutcome) : List (Nat × CandStatus) :=
  (candidateKs kmin kmax).map (fun k => (k, markOutcome (run k)))

/-- The scores the max-selection sees: failed candidates contribute none. -/
def scoreOf (run : Nat → CandOutcome) (k : Nat) : Option ℚ :=
  match run k with
  | CandOutcome.ok s => some s
  | CandOutcome.failed _ => none

/-- Modelled from the spec: one full evaluation run — score every candidate,
record the report, select over the successful candidates. -/
def evalRun (kmin kmax : Nat) (run : Nat → CandOutcome) : Option Cand :=
  bestK kmin kmax (scoreOf run)

theorem scoreOf_eq_none (run : Nat → CandOutcome) (k : Nat) :
    scoreOf run k = none ↔ ∀ s, run k ≠ CandOutcome.ok s := by
  constructor
  · intro hn s hs
    unfold scoreOf at hn
    rw [hs] at hn
    exact absurd hn (by simp)
  · intro hall
    unfold scoreOf
    split
    · rename_i s hs
      exact absurd hs (hall s)
    · rfl

/-- Claim C4: a failure (timeout, numerical failure, or degenerate partition)
while scoring one candidate is recorded in the report with the sentinel
failed status and that candidate is excluded from the max-selection; every
successful candidate keeps its scored entry and selection proceeds over those
alone; the run yields no result exactly when no candidate in the range
succeeds; and a timeout is marked exactly like a computational failure. -/
theorem candidate_failure_semantics (kmin kmax k : Nat) (run : Nat → CandOutcome)
    (cause : FailCause) (hk1 : kmin ≤ k) (hk2 : k ≤ kmax)
    (hfail : run k = CandOutcome.failed cause) :
    (k, CandStatus.failedStatus) ∈ qualityReport kmin kmax run ∧
    (∀ c, evalRun kmin kmax run = some c → c.k ≠ k) ∧
    (∀ k' s, kmin ≤ k' → k' ≤ kmax → run k' = CandOutcome.ok s →
      (k', CandStatus.scored s) ∈ qualityReport kmin kmax run) ∧
    (evalRun kmin kmax run = none ↔
      ∀ k', kmin ≤ k' → k' ≤ kmax → ∀ s, run k' ≠ CandOutcome.ok s) ∧
    markOutcome (CandOutcome.failed FailCause.timeout) =
      markOutcome (CandOutcome.failed FailCause.numerical) := by
  refine ⟨?_, ?_, ?_, ?_, rfl⟩
  · unfold qualityReport
    rw [List.mem_map]
    refine ⟨k, (mem_candidateKs kmin kmax k).mpr ⟨hk1, hk2⟩, ?_⟩
    rw [hfail]
    rfl
  · intro c hc hck
    unfold evalRun bestK at hc
    rcases optimalK_mem_max _ c hc with ⟨hmem, _⟩
    rcases (mem_evalCandidates _ _ _ c).mp hmem with ⟨_, _, hsc⟩
    rw [hck] at hsc
    unfold scoreOf at hsc
    rw [hfail] at hsc
    exact absurd hsc (by simp)
  · intro k' s h1 h2 hok
    unfold qualityReport
    rw [List.mem_map]
    refine ⟨k', (mem_candidateKs kmin kmax k').mpr ⟨h1, h2⟩, ?_⟩
    rw [hok]
    rfl
  · unfold evalRun bestK
    rw [optimalK_eq_none]
    unfold evalCandidates
    rw [List.filterMap_eq_nil_iff]
    constructor
    · intro hall k' h1 h2
      have := hall k' ((mem_candidateKs kmin kmax k').mpr ⟨h1, h2⟩)
      rw [Option.map_eq_none'] at this
      exact (scoreOf_eq_none run k').mp this
    · intro hall a ha
      rcases (mem_candidateKs kmin kmax a).mp ha with ⟨h1, h2⟩
      rw [Option.map_eq_none']
      exact (scoreOf_eq_none run a).mpr (hall a h1 h2)

/-- The spec's scenario: evaluating `k` in `[5, 8]` where `k = 7` times out
and the rest succeed. -/
def runEx : Nat → CandOutcome := fun k =>
  if k = 7 then CandOutcome.failed FailCause.timeout
  else CandOutcome.ok (mkRat (40 + k) 100)

/-- Witness for claim C4: the scenario from the spec. -/
theorem candidate_failure_semantics_witness :
    (7, CandStatus.failedStatus) ∈ qualityReport 5 8 runEx ∧
    (8, CandStatus.scored (mkRat 48 100)) ∈ qualityReport 5 8 runEx ∧
    markOutcome (CandOutcome.failed FailCause.timeout) =
      markOutcome (CandOutcome.failed FailCause.numerical) :=
  ⟨(candidate_failure_semantics 5 8 7 runEx FailCause.timeout (by decide) (by decide) rfl).1,
   (candidate_failure_semantics 5 8 7 runEx FailCause.timeout (by decide) (by decide)
      rfl).2.2.1 8 (mkRat 48 100) (by decide) (by decide) rfl,
   (candidate_failure_semantics 5 8 7 runEx FailCause.timeout (by decide) (by decide)
      rfl).2.2.2.2⟩

/-- Modelled from the spec: the indices of the single per-run uniform sample,
drawn once with the fixed seed and reused across all candidate `k`; when the
configured sample size reaches the corpus size, the whole corpus is used (the
graceful fallback of the missing `cluster_eval.py`). -/
def sampleIndices (seed n total : Nat) : List Nat :=
  if total ≤ n then List.range total
  else (List.range n).map (fun i => (seed + i) % total)

/-- Modelled from the spec: the sampled rows of the corpus. -/
def sampleRows {α : Type} (seed n : Nat) (corpus : List α) : List α :=
  (sampleIndices seed n corpus.length).filterMap (fun i => corpus.get? i)

/-- Modelled from the spec: the sampling-strategy score of candidate `k` — the
quality metric evaluated on the sampled rows. -/
def samplingScore {α : Type} (metric : Nat → List α → ℚ) (seed n k : Nat)
    (corpus : List α) : ℚ :=
  metric k (sampleRows seed n corpus)

/-- Modelled from the spec: the exact-strategy score of candidate `k` — the
quality metric evaluated on the whole corpus. -/
def exactScore {α : Type} (metric : Nat → List α → ℚ) (k : Nat)
    (corpus : List α) : ℚ :=
  metric k corpus

theorem filterMap_get?_range {α : Type} (l : List α) :
    (List.range l.length).filterMap (fun i => l.get? i) = l := by
  induction l with
  | nil => rfl
  | cons a t ih =>
    simp only [List.length_cons, List.range_succ_eq_map, List.filterMap_cons,
      List.get?_cons_zero, List.filterMap_map, Function.comp_def,
      List.get?_cons_succ]
    rw [ih]

/-- Claim C5: when the configured sample size is at least the corpus size, the
sampling strategy uses the whole corpus — the sampler is total, so no error is
raised — and for every candidate `k` its score equals the exact-strategy score
for the same `k`. -/
theorem samplingScore_fallback_exact {α : Type} (metric : Nat → List α → ℚ)
    (seed n : Nat) (corpus : List α) (hn : corpus.length ≤ n) :
    sampleRows seed n corpus = corpus ∧
    ∀ k, samplingScore metric seed n k corpus = exactScore metric k corpus := by
  have hrows : sampleRows seed n corpus = corpus := by
    unfold sampleRows sampleIndices
    rw [if_pos hn]
    exact filterMap_get?_range corpus
  refine ⟨hrows, fun k => ?_⟩
  unfold samplingScore exactScore
  rw [hrows]

/-- Ten short documents, as in the spec's fallback scenario. -/
def corpusEx : List String :=
  ["d0", "d1", "d2", "d3", "d4", "d5", "d6", "d7", "d8", "d9"]

/-- A concrete quality metric for the witness. -/
def metricEx : Nat → List String → ℚ := fun k l => mkRat (k + l.length) 10

/-- Witness for claim C5: a corpus of 10 documents with sample size 10. -/
theorem samplingScore_fallback_exact_witness :
    sampleRows 42 10 corpusEx = corpusEx ∧
    samplingScore metricEx 42 10 2 corpusEx = exactScore metricEx 2 corpusEx :=
  ⟨(samplingScore_fallback_exact metricEx 42 10 corpusEx (by decide)).1,
   (samplingScore_fallback_exact metricEx 42 10 corpusEx (by decide)).2 2⟩

/-- The negative-keyword score of the topic-inspection step
(`src/unnamed/part_011`): `sum(kw in txt for kw in _NEG_KEYWORDS)` — one
point per lexicon keyword occurring as a substring of the document text.
Text and keywords are embedded as character lists; Python's `kw in txt` is
substring containment. -/
def hits (kws : List (List Char)) (txt : List Char) : Nat :=
  (kws.filter (fun kw => decide (kw <:+: txt))).length

/-- Stated from the spec's words, for comparison with `hits`: the number of
positions of the document at which the keyword occurs. -/
def occurrenceCount (kw txt : List Char) : Nat :=
  ((List.range (txt.length + 1)).filter (fun i => decide (kw <+: txt.drop i))).length

/-- Stated from the spec's words, for comparison with `hits`: the total count
of lexicon term occurrences in the document. -/
def specTotalScore (kws : List (List Char)) (txt : List Char) : Nat :=
  (kws.map (fun kw => occurrenceCount kw txt)).sum

/-- A document containing the keyword `bad` twice. -/
def txtBadBad : List Char := ['b', 'a', 'd', ' ', 'b', 'a', 'd']

/-- A one-keyword lexicon. -/
def kwsBad : List (List Char) := [['b', 'a', 'd']]

/-- Claim C3 counterexample: on a document containing one lexicon term twice,
the code's score is 1 — the number of lexicon terms present — not the total
occurrence count 2 claimed by the spec. -/
theorem hits_ne_occurrences :
    hits kwsBad txtBadBad = 1 ∧ specTotalScore kwsBad txtBadBad = 2 ∧
    hits kwsBad txtBadBad ≠ specTotalScore kwsBad txtBadBad := by
  refine ⟨?_, ?_, ?_⟩ <;> decide

/-- A sentiment label. -/
inductive SentLabel
  | positive
  | negative
deriving DecidableEq

/-- Modelled from the spec: the label derivation of the sentiment stage
(absent from the repository sources): a document scoring strictly above the
fixed threshold is labeled negative, otherwise positive. -/
def sentimentLabel (threshold score : Nat) : SentLabel :=
  if threshold < score then SentLabel.negative else SentLabel.positive

theorem occurrenceCount_pos (kw txt : List Char) (h : kw <:+: txt) :
    1 ≤ occurrenceCount kw txt := by
  rcases h with ⟨s, t, rfl⟩
  have hdrop : ((s ++ kw ++ t).drop s.length) = kw ++ t := by
    rw [List.append_assoc, List.drop_left]
  have hpre : kw <+: (s ++ kw ++ t).drop s.length := by
    rw [hdrop]
    exact List.prefix_append kw t
  have hmem : s.length ∈ (List.range ((s ++ kw ++ t).length + 1)).filter
      (fun i => decide (kw <+: (s ++ kw ++ t).drop i)) := by
    rw [List.mem_filter]
    refine ⟨List.mem_range.mpr ?_, decide_eq_true hpre⟩
    simp only [List.length_append]
    omega
  unfold occurrenceCount
  exact List.length_pos.mpr (List.ne_nil_of_mem hmem)

theorem hits_le_spec (kws : List (List Char)) (txt : List Char) :
    hits kws txt ≤ specTotalScore kws txt := by
  induction kws with
  | nil => exact le_refl 0
  | cons kw ks ih =>
    simp only [hits, specTotalScore, List.map_cons, List.sum_cons,
      List.filter_cons] at ih ⊢
    by_cases h : kw <:+: txt
    · rw [if_pos (decide_eq_true h), List.length_cons]
      have h1 := occurrenceCount_pos kw txt h
      omega
    · rw [if_neg (by simpa using h)]
      exact le_trans ih (Nat.le_add_left _ _)

/-- Claim C3 (amended): the score is non-negative and counts each lexicon
term at most once — the number of lexicon terms occurring in the document, a
lower bound of (in general not equal to) the total occurrence count — and the
derived label is negative exactly when the score is strictly above the fixed
threshold. -/
theorem hits_amended_score_label (kws : List (List Char)) (txt : List Char)
    (threshold : Nat) :
    0 ≤ hits kws txt ∧
    hits kws txt ≤ specTotalScore kws txt ∧
    (sentimentLabel threshold (hits kws txt) = SentLabel.negative ↔
      threshold < hits kws txt) := by
  refine ⟨Nat.zero_le _, hits_le_spec kws txt, ?_⟩
  unfold sentimentLabel
  by_cases h : threshold < hits kws txt
  · rw [if_pos h]
    simp [h]
  · rw [if_neg h]
    simp [h]

/-- Claim C7: extending a document's text by appending occurrences of lexicon
terms never decreases its score. -/
theorem hits_append_mono (kws : List (List Char)) (txt : List Char)
    (terms : List (List Char)) (_hterms : ∀ t ∈ terms, t ∈ kws) :
    hits kws txt ≤ hits kws (txt ++ terms.flatten) := by
  unfold hits
  rw [← List.countP_eq_length_filter, ← List.countP_eq_length_filter]
  apply List.countP_mono_left
  intro kw _ hkw
  have h1 : kw <:+: txt := of_decide_eq_true hkw
  exact decide_eq_true (h1.trans (List.prefix_append txt terms.flatten).isInfix)

/-- The two-keyword lexicon used by the sentiment witnesses. -/
def kwsEx : List (List Char) := [['b', 'a', 'd'], ['n', 'g']]

/-- Witness for claim C7: appending one lexicon term to a short document. -/
theorem hits_append_mono_witness :
    hits kwsEx ['o', 'k'] ≤ hits kwsEx (['o', 'k'] ++ [['b', 'a', 'd']].flatten) :=
  hits_append_mono kwsEx ['o', 'k'] [['b', 'a', 'd']] (by decide)

/-- Claim C9: for a duplicate-free lexicon, the per-document score equals the
number of distinct lexicon keywords occurring as substrings of the document —
each keyword counts once however often it repeats — and for every document it
is bounded by the lexicon size. -/
theorem hits_distinct_bound (kws : List (List Char)) (txt : List Char)
    (hnodup : kws.Nodup) :
    hits kws txt = (kws.toFinset.filter (fun kw => kw <:+: txt)).card ∧
    ∀ txt2 : List Char, hits kws txt2 ≤ kws.length := by
  constructor
  · unfold hits
    rw [← List.toFinset_card_of_nodup (hnodup.filter _), List.toFinset_filter]
    congr 1
    apply Finset.filter_congr
    intro x _
    simp
  · intro txt2
    exact List.length_filter_le _ _

/-- Witness for claim C9: the keyword occurring twice is counted once and the
bound holds. -/
theorem hits_distinct_bound_witness :
    hits kwsEx txtBadBad =
      (kwsEx.toFinset.filter (fun kw => kw <:+: txtBadBad)).card ∧
    hits kwsEx txtBadBad ≤ kwsEx.length :=
  ⟨(hits_distinct_bound kwsEx txtBadBad (by decide)).1,
   (hits_distinct_bound kwsEx txtBadBad (by decide)).2 txtBadBad⟩

/-- JavaScript's `trim()`, over character lists: whitespace removed from both
ends. -/
def trimChars (s : List Char) : List Char :=
  ((s.dropWhile Char.isWhitespace).reverse.dropWhile Char.isWhitespace).reverse

/-- One review row returned by the search backend. -/
structure Review where
  comment : List Char
  dataset : String
deriving DecidableEq

/-- The query `fetchResults` sends: search term, optional dataset filter, and
pagination range. -/
structure SearchQuery where
  term : List Char
  datasetFilter : Option String
  rangeFrom : Nat
  rangeTo : Nat
deriving DecidableEq

/-- The state `fetchResults` leaves behind: the result rows, the estimated
total, and the backend query it issued, if any. -/
structure FetchState where
  results : List Review
  total : Nat
  issued : Option SearchQuery
deriving DecidableEq

/-- The page size of the search page. -/
def PAGE_SIZE : Nat := 10

/-- The dataset filter value meaning no filter. -/
def datasetAll : String := "all"

/-- `fetchResults` of `SearchEngine`
(`src/dashboard/src/pages/SearchEngine.jsx`, lines 53-104): a blank search
term clears results and total and returns before any backend call; otherwise
the backend is queried with the term, the dataset filter and the pagination
range `[(page-1)*PAGE_SIZE, (page-1)*PAGE_SIZE + PAGE_SIZE - 1]`; an error
clears the state, and success stores the rows with the estimated total
`min(data.length + (page-1)*PAGE_SIZE, 1000)`. -/
def fetchResults (searchTerm : List Char) (dataset : String) (page : Nat)
    (backend : SearchQuery → Except String (List Review)) : FetchState :=
  if trimChars searchTerm = [] then FetchState.mk [] 0 none
  else
    let q := SearchQuery.mk searchTerm
      (if dataset = datasetAll then none else some dataset)
      ((page - 1) * PAGE_SIZE) ((page - 1) * PAGE_SIZE + PAGE_SIZE - 1)
    match backend q with
    | Except.error _ => FetchState.mk [] 0 (some q)
    | Except.ok data =>
        FetchState.mk data (min (data.length + (page - 1) * PAGE_SIZE) 1000) (some q)

/-- Claim C8: for every dataset filter and page, a search term that is empty
or whitespace-only yields an empty result list and a total of 0 without any
backend query being issued; a non-empty result list can arise only from a
non-blank search term. -/
theorem fetchResults_blank_no_query (searchTerm : List Char) (dataset : String)
    (page : Nat) (backend : SearchQuery → Except String (List Review)) :
    (trimChars searchTerm = [] →
      fetchResults searchTerm dataset page backend = FetchState.mk [] 0 none) ∧
    ((fetchResults searchTerm dataset page backend).results ≠ [] →
      trimChars searchTerm ≠ []) := by
  constructor
  · intro hblank
    unfold fetchResults
    rw [if_pos hblank]
  · intro hres hblank
    have h1 : fetchResults searchTerm dataset page backend = FetchState.mk [] 0 none := by
      unfold fetchResults
      rw [if_pos hblank]
    rw [h1] at hres
    exact hres rfl

/-- A whitespace-only search term. -/
def blankTerm : List Char := [' ', ' ', ' ']

/-- A non-blank search term. -/
def ramenTerm : List Char := ['r', 'a', 'm', 'e', 'n']

/-- A concrete backend for the witness. -/
def backendEx : SearchQuery → Except String (List Review) :=
  fun _ => Except.ok [Review.mk ['o', 'k'] datasetAll]

/-- Witness for claim C8: the blank term issues no query; a term that
returned results is non-blank. -/
theorem fetchResults_blank_no_query_witness :
    fetchResults blankTerm datasetAll 1 backendEx = FetchState.mk [] 0 none ∧
    trimChars ramenTerm ≠ [] :=
  ⟨(fetchResults_blank_no_query blankTerm datasetAll 1 backendEx).1 (by decide),
   (fetchResults_blank_no_query ramenTerm datasetAll 1 backendEx).2 (by decide)⟩

/-- One representative quote of the dashboard's mock data. -/
structure ReviewQuote where
  comment : String
  sentiment : String
  sentiment_score : ℚ
  topic : Nat
deriving DecidableEq

/-- The mock quote table of `RepresentativeQuotes` for the `high_rating`
dataset (`src/dashboard/src/viz/RepresentativeQuotes.jsx`). -/
def mockQuotesHighRating : List (Nat × List ReviewQuote) :=
  [(0, [⟨"本庄の住宅街にひっそりと佇む、日本料理のお店。店名は金沢の美しい「ひがし茶屋街」に因んでおられます。明石の蛸と蓴菜。海胆と鱒、上品な取り合わせ。", "positive", 1/10, 0⟩,
        ⟨"以前から行きたかったのですが、他にも色々行かねばならない店が多く後回しになり、ようやく行くことができました。", "positive", 5/100, 3⟩]),
   (1, [⟨"坂出駅から徒歩5.6分くらい？のところにある有名なうどん屋さん。うどん屋さんといっても製麺所で、1時間だけうどんを提供しています。", "positive", 2/100, 7⟩,
        ⟨"利用状況と注意点・平日15:30ごろ・2人平日だったため並ばずに入ることができたが、整理券用の機械が置いてあった。", "positive", 0, 3⟩]),
   (2, [⟨"2020年から予約制になったようですね。伺ったのは2019年、写真フォルダから出てきました。あの日は確か１日中雨、湯河原に友人と旅行に行った際に湯河原といえば飯田商店ということで、覚悟して行きました。", "positive", 0, 3⟩])]

/-- The mock quote table of `RepresentativeQuotes` for the `most_commented`
dataset. -/
def mockQuotesMostCommented : List (Nat × List ReviewQuote) :=
  [(0, [⟨"値段が高すぎると思います。料理の質は良いですが、コストパフォーマンスが悪いです。残念でした。", "negative", 6/10, 2⟩]),
   (1, [⟨"開店時間に遅れて到着したため、かなり待つことになりました。時間管理がもう少し良ければと思います。", "negative", 4/10, 1⟩])]

/-- The quote table picked by dataset, as in the source's ternary. -/
def mockQuotes (dataset : String) : List (Nat × List ReviewQuote) :=
  if dataset = datasetHighRating then mockQuotesHighRating
  else mockQuotesMostCommented

/-- The cluster dropdown selection: the `all` option or one cluster id. -/
inductive ClusterSelection
  | all
  | cluster (id : Nat)
deriving DecidableEq

/-- `loadQuotes` of `RepresentativeQuotes`
(`src/dashboard/src/viz/RepresentativeQuotes.jsx`, lines 74-79):
`Object.values(mockQuotes).flat()` for the `all` selection, and
`mockQuotes[selectedCluster] || []` otherwise. -/
def loadQuotes (dataset : String) (sel : ClusterSelection) : List ReviewQuote :=
  match sel with
  | ClusterSelection.all => ((mockQuotes dataset).map Prod.snd).flatten
  | ClusterSelection.cluster id =>
      (((mockQuotes dataset).find? (fun p => p.1 == id)).map Prod.snd).getD []

/-- Claim C10: the `all` selection yields exactly the concatenation of every
cluster's quote list — a quote appears iff some stored cluster holds it — and
selecting a cluster id with no stored quotes yields the empty list rather
than an error. -/
theorem loadQuotes_all_and_missing (dataset : String) (id : Nat)
    (hmiss : ∀ p ∈ mockQuotes dataset, p.1 ≠ id) :
    loadQuotes dataset ClusterSelection.all =
      ((mockQuotes dataset).map Prod.snd).flatten ∧
    (∀ q, q ∈ loadQuotes dataset ClusterSelection.all ↔
      ∃ p ∈ mockQuotes dataset, q ∈ p.2) ∧
    loadQuotes dataset (ClusterSelection.cluster id) = [] := by
  refine ⟨rfl, ?_, ?_⟩
  · intro q
    unfold loadQuotes
    rw [List.mem_flatten]
    constructor
    · rintro ⟨l, hl, hq⟩
      rcases List.mem_map.mp hl with ⟨p, hp, rfl⟩
      exact ⟨p, hp, hq⟩
    · rintro ⟨p, hp, hq⟩
      exact ⟨p.2, List.mem_map.mpr ⟨p, hp, rfl⟩, hq⟩
  · have hnone : (mockQuotes dataset).find? (fun p => p.1 == id) = none :=
      List.find?_eq_none.mpr (fun p hp => by simpa using hmiss p hp)
    show (((mockQuotes dataset).find? (fun p => p.1 == id)).map Prod.snd).getD [] = []
    rw [hnone]
    rfl

/-- Witness for claim C10: cluster 5 has no stored quotes in the
`high_rating` table. -/
theorem loadQuotes_all_and_missing_witness :
    loadQuotes datasetHighRating (ClusterSelection.cluster 5) = [] :=
  (loadQuotes_all_and_missing datasetHighRating 5 (by decide)).2.2
